import Mathlib

/-!
Verification of the ATS (Applicant Tracking System) keyword-match analyzer,
`src/functions/utils/ats_analyzer.py`, class `ATSAnalyzer`.

The analyzer is pure string computation: `_extract_keywords` lowercases the
text, deletes every character that is neither a word character nor whitespace
(the regex `[^\w\s]`), tokenizes, and keeps the tokens that are not English
stop words and have length above 2; `analyze` intersects the two keyword
sets, computes a rounded match percentage and 20-element output lists; and
`_generate_suggestions` formats the missing keywords.

Modelling choices, each noted again at its definition:
  * characters are treated at the ASCII fragment of Python semantics
    (`str.lower`, `\w`, `\s`); every concrete input used below is ASCII;
  * after the regex strip the text contains only word characters and
    whitespace, on which NLTK word_tokenize reduces to whitespace splitting;
  * Python floats are modelled by exact rationals, and `round(x, 1)` by
    rounding `10 * x` to an integer (the spec accepts either half-up or
    half-even at ties);
  * a Python `set` of strings is modelled as a duplicate-free `List String`
    in a canonical order (set iteration order is unspecified in Python, and
    every property proved below about the derived lists is independent of
    the order); set-level statements speak about its `toFinset`.
-/

namespace ATS

/-- A character kept by the regex substitution deleting every match of
`[^\w\s]`, because it matches `\w`: alphanumeric or underscore (ASCII
fragment). -/
def isWordChar (c : Char) : Bool := c.isAlphanum || c = '_'

/-- The regex substitution re.sub deleting every match of `[^\w\s]` from the
text, on its character list: delete every character that is neither a word
character nor whitespace. -/
def stripPunct (text : List Char) : List Char :=
  text.filter (fun c => isWordChar c || c.isWhitespace)

/-- Python `str.lower()` (ASCII fragment), one character at a time. -/
def pyLower (text : List Char) : List Char := text.map Char.toLower

/-- One step of whitespace tokenization: `acc` holds the characters of the
token currently being read, emitted when whitespace or the end is reached. -/
def wordsAux : List Char → List Char → List String
  | [], acc => if acc = [] then [] else [String.mk acc]
  | c :: cs, acc =>
    if c.isWhitespace then
      (if acc = [] then [] else [String.mk acc]) ++ wordsAux cs []
    else wordsAux cs (acc ++ [c])

/-- Whitespace tokenization: after `stripPunct` the text holds only word
characters and whitespace, on which `nltk.word_tokenize` reduces to splitting
at whitespace (its punctuation rules have nothing left to fire on). -/
def words (l : List Char) : List String := wordsAux l []

/-- The NLTK english stop-word list, `nltk.corpus.stopwords.words`.
Entries of the NLTK list that
contain an apostrophe (e.g. the contracted forms of "do not", "she is") are
omitted: the regex strip removes apostrophes before tokenization, so no token
can ever equal such an entry and dropping them does not change
`extract_keywords`. -/
def stop_words : List String :=
  ["i", "me", "my", "myself", "we", "our", "ours", "ourselves", "you",
   "your", "yours", "yourself", "yourselves", "he", "him", "his", "himself",
   "she", "her", "hers", "herself", "it", "its", "itself", "they", "them",
   "their", "theirs", "themselves", "what", "which", "who", "whom", "this",
   "that", "these", "those", "am", "is", "are", "was", "were", "be", "been",
   "being", "have", "has", "had", "having", "do", "does", "did", "doing",
   "a", "an", "the", "and", "but", "if", "or", "because", "as", "until",
   "while", "of", "at", "by", "for", "with", "about", "against", "between",
   "into", "through", "during", "before", "after", "above", "below", "to",
   "from", "up", "down", "in", "out", "on", "off", "over", "under", "again",
   "further", "then", "once", "here", "there", "when", "where", "why", "how",
   "all", "any", "both", "each", "few", "more", "most", "other", "some",
   "such", "no", "nor", "not", "only", "own", "same", "so", "than", "too",
   "very", "s", "t", "can", "will", "just", "don", "should", "now", "d",
   "ll", "m", "o", "re", "ve", "y", "ain", "aren", "couldn", "didn",
   "doesn", "hadn", "hasn", "haven", "isn", "ma", "mightn", "mustn",
   "needn", "shan", "shouldn", "wasn", "weren", "won", "wouldn"]

/-- `ATSAnalyzer._extract_keywords`:
lowercase the text and delete every match of `[^\w\s]`, then tokenize and
keep the
tokens that are not stop words and have length above 2, as a set —
modelled as the duplicate-free list of those tokens. -/
def extract_keywords (text : String) : List String :=
  ((words (stripPunct (pyLower text.data))).filter
    (fun w => decide (w ∉ stop_words ∧ 2 < w.length))).dedup

/-- `ATSAnalyzer._generate_suggestions`. -/
def generate_suggestions (missing_keywords : List String) : String :=
  if missing_keywords.isEmpty then "Excellent keyword coverage!"
  else "Consider incorporating these missing keywords: " ++
    String.intercalate ", " (missing_keywords.take 10)

/-- Python `round(x, 1)`, on exact rationals: round `10 * x` to an integer
and divide by 10.  The Python float `round` resolves exact ties to even;
the spec accepts either half-up (used here, the Mathlib `round`) or
half-even. -/
def roundTo1 (x : ℚ) : ℚ := (round (10 * x) : ℤ) / 10

/-- The dictionary returned by `ATSAnalyzer.analyze`. -/
structure AnalysisResult where
  keywordMatchPercent : ℚ
  matchedKeywords : List String
  missingKeywords : List String
  suggestions : String
deriving DecidableEq, Repr

/-- `ATSAnalyzer.analyze` (pure value; see `analyzeE` for the embedding in
which division is fallible as in Python).  `list(job_keywords ∩ doc)` and
`list(job_keywords − doc)` enumerate in the canonical set order of the
model. -/
def analyze (document_text : String) (job_description : String) : AnalysisResult :=
  let job_keywords := extract_keywords job_description
  let doc_keywords := extract_keywords document_text
  if job_keywords = [] then
    { keywordMatchPercent := 0
      matchedKeywords := []
      missingKeywords := []
      suggestions := "Could not extract keywords from job description." }
  else
    let matched_keywords := job_keywords.filter (fun w => decide (w ∈ doc_keywords))
    let missing_keywords := job_keywords.filter (fun w => decide (w ∉ doc_keywords))
    let match_percent : ℚ :=
      if job_keywords = [] then 0
      else ((matched_keywords.length : ℚ) / (job_keywords.length : ℚ)) * 100
    { keywordMatchPercent := roundTo1 match_percent
      matchedKeywords := matched_keywords.take 20
      missingKeywords := missing_keywords.take 20
      suggestions := generate_suggestions missing_keywords }

/-- Python division, which raises `ZeroDivisionError` on a zero denominator,
as a fallible operation. -/
def divE (a b : ℚ) : Except String ℚ :=
  if b = 0 then .error "ZeroDivisionError" else .ok (a / b)

/-- `ATSAnalyzer.analyze` with the division kept fallible exactly as in the
source: the guarded ternary `... if job_keywords else 0` only divides when
`job_keywords` is non-empty. -/
def analyzeE (document_text : String) (job_description : String) :
    Except String AnalysisResult :=
  let job_keywords := extract_keywords job_description
  let doc_keywords := extract_keywords document_text
  if job_keywords = [] then
    .ok { keywordMatchPercent := 0
          matchedKeywords := []
          missingKeywords := []
          suggestions := "Could not extract keywords from job description." }
  else
    let matched_keywords := job_keywords.filter (fun w => decide (w ∈ doc_keywords))
    let missing_keywords := job_keywords.filter (fun w => decide (w ∉ doc_keywords))
    do
      let q ← if job_keywords = [] then .ok (0 : ℚ)
        else do
          let d ← divE (matched_keywords.length : ℚ) (job_keywords.length : ℚ)
          .ok (d * 100)
      .ok { keywordMatchPercent := roundTo1 q
            matchedKeywords := matched_keywords.take 20
            missingKeywords := missing_keywords.take 20
            suggestions := generate_suggestions missing_keywords }

end ATS

namespace ATS

/-! ### Character-level lemmas -/

theorem isUpper_iff_toNat (c : Char) : c.isUpper = true ↔ 65 ≤ c.toNat ∧ c.toNat ≤ 90 := by
  simp only [Char.isUpper, Bool.and_eq_true, decide_eq_true_eq, ge_iff_le]
  rw [UInt32.le_def, UInt32.le_def, BitVec.le_def, BitVec.le_def]
  have e1 : (65 : UInt32).toBitVec.toNat = 65 := by decide
  have e2 : (90 : UInt32).toBitVec.toNat = 90 := by decide
  rw [e1, e2]
  exact Iff.rfl

theorem toLower_not_upper (c : Char) : (Char.toLower c).isUpper = false := by
  rw [← Bool.not_eq_true, isUpper_iff_toNat]
  simp only [Char.toLower]
  split
  next h =>
    obtain ⟨h1, h2⟩ := h
    generalize Char.toNat c = n at h1 h2
    interval_cases n <;> decide
  next h => exact h

theorem toLower_eq_hyphen (c : Char) : Char.toLower c = '-' ↔ c = '-' := by
  simp only [Char.toLower]
  split
  next h =>
    obtain ⟨h1, h2⟩ := h
    constructor
    · intro hEq
      exfalso
      generalize Char.toNat c = n at h1 h2 hEq
      interval_cases n <;> exact absurd hEq (by decide)
    · intro hEq
      subst hEq
      exact absurd h1 (by decide)
  next h => exact Iff.rfl

end ATS

namespace ATS

/-! ### Tokenizer lemmas -/

theorem wordsAux_mem (l : List Char) :
    ∀ (acc : List Char), (∀ c ∈ acc, c.isWhitespace = false) →
      ∀ w ∈ wordsAux l acc,
        w.data ≠ [] ∧ ∀ c ∈ w.data, (c ∈ acc ∨ c ∈ l) ∧ c.isWhitespace = false := by
  induction l with
  | nil =>
    intro acc hacc w hw
    by_cases h : acc = []
    · simp [wordsAux, h] at hw
    · simp only [wordsAux, if_neg h, List.mem_singleton] at hw
      subst hw
      exact ⟨h, fun c hc => ⟨Or.inl hc, hacc c hc⟩⟩
  | cons a as ih =>
    intro acc hacc w hw
    by_cases hws : a.isWhitespace
    · simp only [wordsAux, if_pos hws, List.mem_append] at hw
      rcases hw with hw | hw
      · by_cases h : acc = []
        · simp [h] at hw
        · simp only [if_neg h, List.mem_singleton] at hw
          subst hw
          exact ⟨h, fun c hc => ⟨Or.inl hc, hacc c hc⟩⟩
      · obtain ⟨hne, hall⟩ := ih [] (by simp) w hw
        refine ⟨hne, fun c hc => ?_⟩
        obtain ⟨hmem, hcws⟩ := hall c hc
        rcases hmem with h | h
        · simp at h
        · exact ⟨Or.inr (List.mem_cons_of_mem _ h), hcws⟩
    · simp only [wordsAux, if_neg hws] at hw
      have hacc' : ∀ c ∈ acc ++ [a], c.isWhitespace = false := by
        intro c hc
        rcases List.mem_append.mp hc with h | h
        · exact hacc c h
        · rw [List.mem_singleton.mp h]
          exact Bool.not_eq_true _ ▸ eq_false_of_ne_true hws
      obtain ⟨hne, hall⟩ := ih (acc ++ [a]) hacc' w hw
      refine ⟨hne, fun c hc => ?_⟩
      obtain ⟨hmem, hcws⟩ := hall c hc
      rcases hmem with h | h
      · rcases List.mem_append.mp h with h' | h'
        · exact ⟨Or.inl h', hcws⟩
        · exact ⟨Or.inr (List.mem_singleton.mp h' ▸ List.mem_cons_self a as), hcws⟩
      · exact ⟨Or.inr (List.mem_cons_of_mem _ h), hcws⟩

theorem words_mem {l : List Char} {w : String} (hw : w ∈ words l) :
    w.data ≠ [] ∧ ∀ c ∈ w.data, c ∈ l ∧ c.isWhitespace = false := by
  obtain ⟨hne, hall⟩ := wordsAux_mem l [] (by simp) w hw
  refine ⟨hne, fun c hc => ?_⟩
  obtain ⟨hmem, hcws⟩ := hall c hc
  rcases hmem with h | h
  · simp at h
  · exact ⟨h, hcws⟩

/-! ### Keyword-set lemmas -/

theorem mem_extract {w : String} {t : String} :
    w ∈ extract_keywords t ↔
      w ∈ words (stripPunct (pyLower t.data)) ∧ w ∉ stop_words ∧ 2 < w.length := by
  simp [extract_keywords, List.mem_dedup, List.mem_filter]

theorem extract_nodup (t : String) : (extract_keywords t).Nodup :=
  List.nodup_dedup _

end ATS

namespace ATS

/-! ### Bridging the canonical keyword lists with the keyword sets -/

theorem toFinset_filter_mem (l1 l2 : List String) :
    (l1.filter (fun w => decide (w ∈ l2))).toFinset = l1.toFinset ∩ l2.toFinset := by
  ext a
  simp [List.mem_filter, List.mem_toFinset]

theorem toFinset_filter_not_mem (l1 l2 : List String) :
    (l1.filter (fun w => decide (w ∉ l2))).toFinset = l1.toFinset \ l2.toFinset := by
  ext a
  simp [List.mem_filter, List.mem_toFinset]

theorem length_filter_mem (l1 l2 : List String) (h1 : l1.Nodup) :
    (l1.filter (fun w => decide (w ∈ l2))).length = (l1.toFinset ∩ l2.toFinset).card := by
  rw [← toFinset_filter_mem, List.toFinset_card_of_nodup (h1.filter _)]

theorem length_filter_not_mem (l1 l2 : List String) (h1 : l1.Nodup) :
    (l1.filter (fun w => decide (w ∉ l2))).length = (l1.toFinset \ l2.toFinset).card := by
  rw [← toFinset_filter_not_mem, List.toFinset_card_of_nodup (h1.filter _)]

/-! ### Rounding lemmas -/

theorem roundTo1_zero : roundTo1 0 = 0 := by
  simp [roundTo1]

theorem roundTo1_mono {x y : ℚ} (h : x ≤ y) : roundTo1 x ≤ roundTo1 y := by
  unfold roundTo1
  have hr : round (10 * x) ≤ round (10 * y) := by
    rw [round_eq, round_eq]
    exact Int.floor_mono (by linarith)
  have hc : ((round (10 * x) : ℤ) : ℚ) ≤ ((round (10 * y) : ℤ) : ℚ) := by
    exact_mod_cast hr
  linarith

/-! ### Unfolding lemmas for `analyze` -/

theorem analyze_guard (d j : String) (h : extract_keywords j = []) :
    analyze d j =
      { keywordMatchPercent := 0
        matchedKeywords := []
        missingKeywords := []
        suggestions := "Could not extract keywords from job description." } := by
  simp [analyze, h]

theorem analyze_matched (d j : String) (h : ¬ extract_keywords j = []) :
    (analyze d j).matchedKeywords =
      ((extract_keywords j).filter
        (fun w => decide (w ∈ extract_keywords d))).take 20 := by
  simp only [analyze]
  rw [if_neg h]

theorem analyze_missing (d j : String) (h : ¬ extract_keywords j = []) :
    (analyze d j).missingKeywords =
      ((extract_keywords j).filter
        (fun w => decide (w ∉ extract_keywords d))).take 20 := by
  simp only [analyze]
  rw [if_neg h]

theorem analyze_percent (d j : String) (h : ¬ extract_keywords j = []) :
    (analyze d j).keywordMatchPercent =
      roundTo1
        (((((extract_keywords j).filter
            (fun w => decide (w ∈ extract_keywords d))).length : ℚ) /
          ((extract_keywords j).length : ℚ)) * 100) := by
  simp only [analyze]
  rw [if_neg h]
  simp only [if_neg h]

theorem analyze_suggestions (d j : String) (h : ¬ extract_keywords j = []) :
    (analyze d j).suggestions =
      generate_suggestions
        ((extract_keywords j).filter (fun w => decide (w ∉ extract_keywords d))) := by
  simp only [analyze]
  rw [if_neg h]

theorem analyzeE_ok (d j : String) : analyzeE d j = Except.ok (analyze d j) := by
  by_cases h : extract_keywords j = []
  · simp [analyzeE, analyze, h]
  · have hK : ((extract_keywords j).length : ℚ) ≠ 0 := by
      simpa using h
    simp only [analyzeE, analyze, if_neg h, divE, if_neg hK]
    rfl

end ATS

namespace ATS

/-- Delete every hyphen from a string (used to state what the regex strip
does to hyphenated compounds). -/
def dropHyphens (s : String) : String :=
  String.mk (s.data.filter (fun c => !(c == '-')))

theorem strip_lower_dropHyphens (l : List Char) :
    stripPunct (pyLower (l.filter (fun c => !(c == '-')))) =
      stripPunct (pyLower l) := by
  induction l with
  | nil => rfl
  | cons c cs ih =>
    by_cases hc : c = '-'
    · subst hc
      have h2 : Char.toLower '-' = '-' := by decide
      have h3 : (isWordChar '-' || Char.isWhitespace '-') = false := by decide
      simp [pyLower, stripPunct, List.filter_cons, h2, h3] at ih ⊢
      exact ih
    · have h1 : ((c == '-') : Bool) = false := by simpa using hc
      simp only [pyLower, stripPunct] at ih
      simp [pyLower, stripPunct, List.filter_cons, h1, ih]

end ATS

namespace ATS

/-- C1: for every pair of input strings such that the job description yields
a non-empty keyword set, the `keywordMatchPercent` returned by `analyze`
equals `round(100 * |matched| / |job_keywords|, 1)` where `matched` and
`job_keywords` are the full, untruncated intersection and job keyword sets,
not the 20-element output lists. -/
theorem C1_match_percent_full_sets (d j : String)
    (h : extract_keywords j ≠ []) :
    (analyze d j).keywordMatchPercent =
      roundTo1 (100 *
        (((extract_keywords j).toFinset ∩ (extract_keywords d).toFinset).card : ℚ) /
        ((extract_keywords j).toFinset.card : ℚ)) := by
  rw [analyze_percent d j h]
  congr 1
  rw [length_filter_mem _ _ (extract_nodup j),
      List.toFinset_card_of_nodup (extract_nodup j)]
  ring

theorem C1_witness :
    extract_keywords "Experience with Python programming and data analysis required" ≠ [] ∧
    (analyze "I have strong Python programming experience."
        "Experience with Python programming and data analysis required").keywordMatchPercent =
      roundTo1 (100 *
        (((extract_keywords "Experience with Python programming and data analysis required").toFinset ∩
          (extract_keywords "I have strong Python programming experience.").toFinset).card : ℚ) /
        ((extract_keywords "Experience with Python programming and data analysis required").toFinset.card : ℚ)) :=
  ⟨by decide, C1_match_percent_full_sets _ _ (by decide)⟩

/-- C2: for every pair of input strings, if the job description yields an
empty keyword set then `analyze` returns exactly the degenerate record with
percent 0, empty lists and the fixed suggestion string, as a normal return
value and not an error. -/
theorem C2_zero_keyword_guard (d j : String) (h : extract_keywords j = []) :
    analyze d j =
      { keywordMatchPercent := 0
        matchedKeywords := []
        missingKeywords := []
        suggestions := "Could not extract keywords from job description." } ∧
    analyzeE d j = Except.ok (analyze d j) :=
  ⟨analyze_guard d j h, analyzeE_ok d j⟩

theorem C2_witness :
    extract_keywords "" = [] ∧
    (analyze "document text with real words" "" =
      { keywordMatchPercent := 0
        matchedKeywords := []
        missingKeywords := []
        suggestions := "Could not extract keywords from job description." } ∧
     analyzeE "document text with real words" "" =
       Except.ok (analyze "document text with real words" "")) :=
  ⟨rfl, C2_zero_keyword_guard _ _ rfl⟩

end ATS

namespace ATS

/-- C3 counterexample: the claim fails at the text "community-services"
itself — the result set contains neither "community" nor "services",
because the regex deletes the hyphen instead of replacing it with a space. -/
theorem C3_counterexample :
    ¬ ("community" ∈ extract_keywords "community-services" ∧
       "services" ∈ extract_keywords "community-services") := by
  decide

/-- C3 amended: `extract_keywords` deletes (rather than replaces with
whitespace) every character that is not a word character or whitespace
before tokenizing, so a hyphenated compound word is fused into a single
token: deleting the hyphens of any text does not change its keyword set,
and for the text "community-services" the result is exactly the fused
token "communityservices", with neither "community" nor "services". -/
theorem C3_hyphen_fusion :
    (∀ text : String, extract_keywords (dropHyphens text) = extract_keywords text) ∧
    extract_keywords "community-services" = ["communityservices"] ∧
    "community" ∉ extract_keywords "community-services" ∧
    "services" ∉ extract_keywords "community-services" := by
  refine ⟨fun t => ?_, by decide, by decide, by decide⟩
  unfold extract_keywords
  rw [show (dropHyphens t).data = t.data.filter (fun c => !(c == '-')) from rfl,
      strip_lower_dropHyphens]

/-- C4 counterexample: keywords need not be alphabetic-only — a purely
numeric token of length above 2 is retained, since the regex class `\w`
keeps
digits and the stop-word list contains no digits. -/
theorem C4_counterexample :
    "1234" ∈ extract_keywords "1234" ∧ "1234".data.all Char.isAlpha = false := by
  decide

/-- C4 amended: every member of the set returned by `extract_keywords` is
non-empty, consists only of word characters (alphanumeric or underscore —
not alphabetic-only), contains no uppercase letter and no whitespace, is
not an English stop word, and has length strictly greater than 2. -/
theorem C4_keyword_wellformed (text : String) (w : String)
    (hw : w ∈ extract_keywords text) :
    w ≠ "" ∧ 2 < w.length ∧
      (∀ c ∈ w.data, isWordChar c = true ∧ c.isUpper = false ∧
        c.isWhitespace = false) ∧
      w ∉ stop_words := by
  obtain ⟨hword, hstop, hlen⟩ := mem_extract.mp hw
  obtain ⟨hne, hall⟩ := words_mem hword
  refine ⟨?_, hlen, ?_, hstop⟩
  · intro hempty
    subst hempty
    simp [String.length] at hlen
  · intro c hc
    obtain ⟨hmem, hws⟩ := hall c hc
    rw [stripPunct, List.mem_filter] at hmem
    obtain ⟨hlower, hkeep⟩ := hmem
    have hword : isWordChar c = true := by
      rcases Bool.or_eq_true_iff.mp hkeep with h | h
      · exact h
      · rw [h] at hws
        exact absurd hws (by simp)
    refine ⟨hword, ?_, hws⟩
    rw [pyLower, List.mem_map] at hlower
    obtain ⟨a, _, ha⟩ := hlower
    rw [← ha]
    exact toLower_not_upper a

theorem C4_witness :
    "python" ≠ "" ∧ 2 < "python".length ∧
      (∀ c ∈ "python".data, isWordChar c = true ∧ c.isUpper = false ∧
        c.isWhitespace = false) ∧
      "python" ∉ stop_words :=
  C4_keyword_wellformed "Senior PYTHON developer roles" "python" (by decide)

end ATS

namespace ATS

/-- C5: for every pair of input strings, the matchedKeywords and
missingKeywords lists each have length at most 20; when the underlying
matched (resp. missing) set has more than 20 members, the corresponding
list has length exactly 20. -/
theorem C5_truncation (d j : String) :
    (analyze d j).matchedKeywords.length ≤ 20 ∧
    (analyze d j).missingKeywords.length ≤ 20 ∧
    (20 < ((extract_keywords j).toFinset ∩ (extract_keywords d).toFinset).card →
      (analyze d j).matchedKeywords.length = 20) ∧
    (20 < ((extract_keywords j).toFinset \ (extract_keywords d).toFinset).card →
      (analyze d j).missingKeywords.length = 20) := by
  by_cases h : extract_keywords j = []
  · rw [analyze_guard d j h]
    have hempty : (extract_keywords j).toFinset = ∅ := by
      rw [h]
      rfl
    rw [hempty]
    simp
  · rw [analyze_matched d j h, analyze_missing d j h]
    rw [List.length_take, List.length_take,
        length_filter_mem _ _ (extract_nodup j),
        length_filter_not_mem _ _ (extract_nodup j)]
    refine ⟨Nat.min_le_left _ _, Nat.min_le_left _ _, fun hgt => ?_, fun hgt => ?_⟩
    · omega
    · omega

/-- Inputs for exercising the exact-20 truncation: a job description with 45
distinct keywords and a document matching 21 of them, so that both the
matched set (21) and the missing set (24) exceed 20. -/
def truncation_job : String :=
  "qaa qab qac qad qae qaf qag qah qai qaj qak qal qam qan qao qap qaq qar qas qat qau qav qaw qax qay qaz qba qbb qbc qbd qbe qbf qbg qbh qbi qbj qbk qbl qbm qbn qbo qbp qbq qbr qbs"

def truncation_doc : String :=
  "qaa qab qac qad qae qaf qag qah qai qaj qak qal qam qan qao qap qaq qar qas qat qau"

theorem C5_witness :
    (analyze truncation_doc truncation_job).matchedKeywords.length = 20 ∧
    (analyze truncation_doc truncation_job).missingKeywords.length = 20 :=
  ⟨(C5_truncation truncation_doc truncation_job).2.2.1 (by decide),
   (C5_truncation truncation_doc truncation_job).2.2.2 (by decide)⟩

end ATS

namespace ATS

/-- C6: `generate_suggestions` returns the fixed string
"Excellent keyword coverage!" exactly when its input is empty; for every
non-empty input it returns the fixed prefix followed by the comma-and-space
joined first `min(10, length)` entries of the input, in order. -/
theorem C6_suggestions (l : List String) :
    (l = [] → generate_suggestions l = "Excellent keyword coverage!") ∧
    (l ≠ [] → generate_suggestions l =
      "Consider incorporating these missing keywords: " ++
        String.intercalate ", " (l.take (min 10 l.length))) := by
  constructor
  · intro h
    subst h
    rfl
  · intro h
    have htake : l.take (min 10 l.length) = l.take 10 := by
      rw [← List.take_take, List.take_length]
    rw [htake, generate_suggestions, if_neg]
    simpa using h

theorem C6_witness :
    generate_suggestions [] = "Excellent keyword coverage!" ∧
    generate_suggestions ["cloud", "kubernetes"] =
      "Consider incorporating these missing keywords: cloud, kubernetes" :=
  ⟨(C6_suggestions []).1 rfl,
   ((C6_suggestions ["cloud", "kubernetes"]).2 (by decide)).trans (by decide)⟩

/-- C7: for every pair of input strings, the matchedKeywords and
missingKeywords lists are disjoint, every element of both is a member of
the keyword set of the job, and every element of matchedKeywords is also a
member of the keyword set of the document. -/
theorem C7_membership (d j : String) :
    (analyze d j).matchedKeywords.toFinset ⊆
      (extract_keywords j).toFinset ∩ (extract_keywords d).toFinset ∧
    (analyze d j).missingKeywords.toFinset ⊆ (extract_keywords j).toFinset ∧
    (analyze d j).matchedKeywords.toFinset ∩
      (analyze d j).missingKeywords.toFinset = ∅ := by
  by_cases h : extract_keywords j = []
  · rw [analyze_guard d j h]
    refine ⟨?_, ?_, ?_⟩
    · simp
    · simp
    · simp
  · rw [analyze_matched d j h, analyze_missing d j h]
    have hm : (((extract_keywords j).filter
        (fun w => decide (w ∈ extract_keywords d))).take 20).toFinset ⊆
        (extract_keywords j).toFinset ∩ (extract_keywords d).toFinset := by
      intro a ha
      rw [← toFinset_filter_mem]
      rw [List.mem_toFinset] at ha ⊢
      exact List.take_subset _ _ ha
    have hn : (((extract_keywords j).filter
        (fun w => decide (w ∉ extract_keywords d))).take 20).toFinset ⊆
        (extract_keywords j).toFinset \ (extract_keywords d).toFinset := by
      intro a ha
      rw [← toFinset_filter_not_mem]
      rw [List.mem_toFinset] at ha ⊢
      exact List.take_subset _ _ ha
    refine ⟨hm, fun a ha => (Finset.mem_sdiff.mp (hn ha)).1, ?_⟩
    rw [Finset.eq_empty_iff_forall_not_mem]
    intro a ha
    rw [Finset.mem_inter] at ha
    have h1 := Finset.mem_inter.mp (hm ha.1)
    have h2 := Finset.mem_sdiff.mp (hn ha.2)
    exact h2.2 h1.2

theorem C7_witness :
    (analyze "python developer" "python and java").matchedKeywords.toFinset ⊆
      (extract_keywords "python and java").toFinset ∩
        (extract_keywords "python developer").toFinset ∧
    (analyze "python developer" "python and java").missingKeywords.toFinset ⊆
      (extract_keywords "python and java").toFinset ∧
    (analyze "python developer" "python and java").matchedKeywords.toFinset ∩
      (analyze "python developer" "python and java").missingKeywords.toFinset = ∅ :=
  C7_membership "python developer" "python and java"

end ATS

namespace ATS

/-- C8: `analyze` is total over string inputs — for every pair of strings the
fallible embedding (in which Python division raises on a zero denominator)
returns the value of the pure function and never an error: the division is
unreachable when the job keyword set is empty, thanks to the guard. -/
theorem C8_total (d j : String) : analyzeE d j = Except.ok (analyze d j) :=
  analyzeE_ok d j

/-- C9: monotonicity of coverage — enlarging the keyword set of the document can
only raise the match percentage, for any fixed job description. -/
theorem C9_monotone_coverage (j d1 d2 : String)
    (h : (extract_keywords d1).toFinset ⊆ (extract_keywords d2).toFinset) :
    (analyze d1 j).keywordMatchPercent ≤ (analyze d2 j).keywordMatchPercent := by
  by_cases hj : extract_keywords j = []
  · rw [analyze_guard d1 j hj, analyze_guard d2 j hj]
  · rw [analyze_percent d1 j hj, analyze_percent d2 j hj]
    apply roundTo1_mono
    rw [length_filter_mem _ _ (extract_nodup j),
        length_filter_mem _ _ (extract_nodup j)]
    have hcard : ((extract_keywords j).toFinset ∩ (extract_keywords d1).toFinset).card ≤
        ((extract_keywords j).toFinset ∩ (extract_keywords d2).toFinset).card :=
      Finset.card_le_card (Finset.inter_subset_inter (Finset.Subset.refl _) h)
    have hc : ((((extract_keywords j).toFinset ∩ (extract_keywords d1).toFinset).card : ℚ)) ≤
        (((extract_keywords j).toFinset ∩ (extract_keywords d2).toFinset).card : ℚ) := by
      exact_mod_cast hcard
    have hK : (0:ℚ) ≤ ((extract_keywords j).length : ℚ) := by positivity
    gcongr

theorem C9_witness :
    (extract_keywords "python").toFinset ⊆ (extract_keywords "python java").toFinset ∧
    (analyze "python" "python java golang").keywordMatchPercent ≤
      (analyze "python java" "python java golang").keywordMatchPercent :=
  ⟨by decide, C9_monotone_coverage "python java golang" "python" "python java" (by decide)⟩

end ATS

namespace ATS

/-- C10: for every job description whose keyword set is non-empty, analyzing
the empty document yields percent 0, an empty matched list, a missing list
whose members are exactly the keywords of the job up to the 20-element
truncation, and a suggestion string beginning with the fixed prefix. -/
theorem C10_empty_document (j : String) (h : extract_keywords j ≠ []) :
    (analyze "" j).keywordMatchPercent = 0 ∧
    (analyze "" j).matchedKeywords = [] ∧
    (analyze "" j).missingKeywords.toFinset ⊆ (extract_keywords j).toFinset ∧
    (analyze "" j).missingKeywords.length = min 20 (extract_keywords j).length ∧
    ((extract_keywords j).length ≤ 20 →
      (analyze "" j).missingKeywords.toFinset = (extract_keywords j).toFinset) ∧
    (∃ rest, (analyze "" j).suggestions =
      "Consider incorporating these missing keywords: " ++ rest) := by
  have hdoc : extract_keywords "" = [] := rfl
  have hfm : (extract_keywords j).filter
      (fun w => decide (w ∈ extract_keywords "")) = [] := by
    rw [hdoc]
    simp
  have hfn : (extract_keywords j).filter
      (fun w => decide (w ∉ extract_keywords "")) = extract_keywords j := by
    rw [hdoc]
    simp
  refine ⟨?_, ?_, ?_, ?_, ?_, ?_⟩
  · rw [analyze_percent _ j h, hfm]
    simpa using roundTo1_zero
  · rw [analyze_matched _ j h, hfm]
    rfl
  · rw [analyze_missing _ j h, hfn]
    intro a ha
    rw [List.mem_toFinset] at ha ⊢
    exact List.take_subset _ _ ha
  · rw [analyze_missing _ j h, hfn, List.length_take]
  · intro hle
    rw [analyze_missing _ j h, hfn, List.take_of_length_le hle]
  · refine ⟨String.intercalate ", " ((extract_keywords j).take 10), ?_⟩
    rw [analyze_suggestions _ j h, hfn, generate_suggestions, if_neg]
    simpa using h

theorem C10_witness :
    extract_keywords "python and java skills" ≠ [] ∧
    ((analyze "" "python and java skills").keywordMatchPercent = 0 ∧
     (analyze "" "python and java skills").matchedKeywords = [] ∧
     (analyze "" "python and java skills").missingKeywords.toFinset ⊆
       (extract_keywords "python and java skills").toFinset ∧
     (analyze "" "python and java skills").missingKeywords.length =
       min 20 (extract_keywords "python and java skills").length ∧
     ((extract_keywords "python and java skills").length ≤ 20 →
       (analyze "" "python and java skills").missingKeywords.toFinset =
         (extract_keywords "python and java skills").toFinset) ∧
     (∃ rest, (analyze "" "python and java skills").suggestions =
       "Consider incorporating these missing keywords: " ++ rest)) :=
  ⟨by decide, C10_empty_document "python and java skills" (by decide)⟩

end ATS
